import Mathlib

/-!
Shallow embedding of `katrain/core/game_node.py` (class `GameNode`):
the per-node analysis store and its merge algorithm (`update_move_analysis`,
`set_analysis`), and the derived metrics (`points_lost`, `player_sign`,
`candidate_moves`, `policy_ranking`, `move_policy_stats`).

Scores, winrates, policy and ownership values are modelled as rationals.
Python dicts with a fixed key universe are modelled as structures whose
optional keys become `Option` fields; `analysis["moves"]` (an insertion-ordered
dict) is an association list where setting an existing key keeps its position
and a fresh key is appended at the end.  A Python function that can raise on
some input is embedded with an `Except Unit` (or `Option`) result, `error`
standing for the raised exception.
-/

namespace KaTrain

/-- Modelled from the spec: a move is a board coordinate plus a player tag, or a
pass (no coordinate); the `Move` class lives in the external
`katrain.core.sgf_parser` collaborator, which is not part of the sampled
fragment.  Equality is value equality on coordinate and player, as the spec
requires for policy-ranking lookup.  `player` is `none` when constructed as
`Move(None)` with no player argument. -/
structure Move where
  coords : Option (Nat × Nat)
  player : Option String
deriving DecidableEq

/-- Modelled from the spec: the GTP string identifying a move ("pass" for a
pass, otherwise a coordinate string); used only as the key into
`analysis["moves"]`. -/
def Move.gtp (m : Move) : String :=
  match m.coords with
  | none => "pass"
  | some (x, y) => toString x ++ "," ++ toString y

/-- Root-level aggregate stats as delivered by the engine (`rootInfo`):
visit count, win probability, signed score lead, optional principal
variation (per the engine contract, `pv` is the only optional field). -/
structure RootInfo where
  visits : Nat
  winrate : ℚ
  scoreLead : ℚ
  pv : Option (List String)
deriving DecidableEq

/-- One element of the payload's `moveInfos`: per-candidate-move stats with all
fields present. -/
structure MoveInfo where
  move : String
  order : Int
  visits : Nat
  winrate : ℚ
  scoreLead : ℚ
  pv : List String
deriving DecidableEq

/-- A per-move analysis dict as passed to `update_move_analysis`.  The "move"
and "order" keys are optional because `rootInfo`-derived records (refine merges
and parent back-propagation) lack them, while `moveInfos` records carry them. -/
structure MoveRecord where
  move : Option String
  order : Option Int
  visits : Nat
  winrate : ℚ
  scoreLead : ℚ
  pv : Option (List String)
deriving DecidableEq

def MoveInfo.toRecord (m : MoveInfo) : MoveRecord :=
  ⟨some m.move, some m.order, m.visits, m.winrate, m.scoreLead, some m.pv⟩

def RootInfo.toRecord (r : RootInfo) : MoveRecord :=
  ⟨none, none, r.visits, r.winrate, r.scoreLead, r.pv⟩

/-- A stored entry of `analysis["moves"]`: the creation path always sets the
"move" and "order" keys (defaults `move_gtp` and 999), so they are total here. -/
structure MoveEntry where
  move : String
  order : Int
  visits : Nat
  winrate : ℚ
  scoreLead : ℚ
  pv : Option (List String)
deriving DecidableEq

/-- The dict literal of the creation branch,
`{"move": move_gtp, "order": 999, **move_analysis}`: the spread overrides the
two defaults whenever the record carries the key. -/
def newEntry (key : String) (ma : MoveRecord) : MoveEntry :=
  ⟨ma.move.getD key, ma.order.getD 999, ma.visits, ma.winrate, ma.scoreLead, ma.pv⟩

/-- The existing-entry branch of `update_move_analysis`:
`cur["order"] = min(cur["order"], move_analysis.get("order", 999))`, then
`cur.update(move_analysis)` iff `cur["visits"] < move_analysis["visits"]`.
`dict.update` overwrites exactly the keys present in the incoming record, so
the freshly computed `min` is itself overwritten when the record carries an
"order" key. -/
def mergeEntry (cur : MoveEntry) (ma : MoveRecord) : MoveEntry :=
  let cur2 : MoveEntry := { cur with order := min cur.order (ma.order.getD 999) }
  if cur2.visits < ma.visits then
    ⟨ma.move.getD cur2.move, ma.order.getD cur2.order, ma.visits, ma.winrate, ma.scoreLead,
      match ma.pv with
      | some p => some p
      | none => cur2.pv⟩
  else cur2

/-- `analysis["moves"]`: an insertion-ordered dict from GTP move id to entry. -/
abbrev Moves := List (String × MoveEntry)

/-- Dict lookup: first (unique) binding of the key. -/
def lookupMove (ms : Moves) (k : String) : Option MoveEntry :=
  match ms with
  | [] => none
  | (k2, v) :: rest => if k2 = k then some v else lookupMove rest k

/-- Dict assignment on a key known to be present: replace the value in place,
keeping the key's position. -/
def setKey (ms : Moves) (k : String) (v : MoveEntry) : Moves :=
  match ms with
  | [] => [(k, v)]
  | (k2, v2) :: rest => if k2 = k then (k, v) :: rest else (k2, v2) :: setKey rest k v

/-- `GameNode.update_move_analysis(move_analysis, move_gtp)`: create a fresh
entry (appended, as dict insertion appends new keys) or merge into the
existing one. -/
def update_move_analysis (ms : Moves) (ma : MoveRecord) (key : String) : Moves :=
  match lookupMove ms key with
  | none => ms ++ [(key, newEntry key ma)]
  | some cur => setKey ms key (mergeEntry cur ma)

/-- The mutable per-node analysis state: `self.analysis` plus the `ownership`
and `policy` attributes (lists of per-point estimates; element values are
modelled as rationals). -/
structure NodeState where
  root : Option RootInfo
  moves : Moves
  ownership : Option (List ℚ)
  policy : Option (List ℚ)
deriving DecidableEq

/-- An engine delivery as consumed by `set_analysis`: `rootInfo`, `moveInfos`,
and the optional `ownership` / `policy` keys (`dict.get` yields `None` when the
payload omits them). -/
structure Payload where
  rootInfo : RootInfo
  moveInfos : List MoveInfo
  ownership : Option (List ℚ)
  policy : Option (List ℚ)
deriving DecidableEq

/-- `analysis_json["moveInfos"][0]["pv"] if analysis_json["moveInfos"] else []`. -/
def pvHead (mis : List MoveInfo) : List String :=
  match mis with
  | [] => []
  | mi :: _ => mi.pv

/-- The merge loop of `set_analysis`:
`for move_analysis in analysis_json["moveInfos"]: self.update_move_analysis(move_analysis, move_analysis["move"])`. -/
def mergeLoop (ms : Moves) (mis : List MoveInfo) : Moves :=
  mis.foldl (fun acc m => update_move_analysis acc m.toRecord m.move) ms

/-- The stale-entry reset of a primary merge:
`for move_dict in self.analysis["moves"].values(): move_dict["order"] = 999`. -/
def resetOrders (ms : Moves) : Moves :=
  ms.map (fun kv => (kv.1, { kv.2 with order := (999 : Int) }))

/-- `GameNode.set_analysis(analysis_json, refine_move, alternatives_mode)`.

The node's tree context enters as `selfMove` (the node's defining move, `None`
for the root node) and `parentMoves` (the parent's `analysis["moves"]` when a
parent exists); the result is the node's new state paired with the parent's
new moves dict.  Two points of the source are modelled with care:

* the refine branch builds `{"pv": [refine_move.gtp()] + pvtail, **rootInfo}`,
  so a `pv` carried by the delivered `rootInfo` overrides the prepended one;
* in the back-propagation branch the source assigns
  `analysis_json["rootInfo"]["pv"] = [move] + pvtail` after
  `self.analysis["root"] = analysis_json["rootInfo"]` aliased the same dict,
  so on a non-alternatives merge the node's own stored root carries the
  synthesized `pv` as well. -/
def set_analysis (self : NodeState) (selfMove : Option Move) (parentMoves : Option Moves)
    (payload : Payload) (refineMove : Option Move) (alternativesMode : Bool) :
    NodeState × Option Moves :=
  match refineMove with
  | some rm =>
      let record : MoveRecord :=
        ⟨none, none, payload.rootInfo.visits, payload.rootInfo.winrate, payload.rootInfo.scoreLead,
          some (payload.rootInfo.pv.getD (rm.gtp :: pvHead payload.moveInfos))⟩
      ({ self with moves := update_move_analysis self.moves record rm.gtp }, parentMoves)
  | none =>
      let mis := if alternativesMode
        then payload.moveInfos.map (fun m => { m with order := m.order + 10 })
        else payload.moveInfos
      let moves0 := if alternativesMode then self.moves else resetOrders self.moves
      let moves1 := mergeLoop moves0 mis
      match selfMove, parentMoves with
      | some mv, some pm =>
          let rootInfo2 := { payload.rootInfo with
            pv := some (mv.gtp :: pvHead payload.moveInfos) }
          let newRoot := if alternativesMode then self.root else some rootInfo2
          let pm2 := update_move_analysis pm rootInfo2.toRecord mv.gtp
          (⟨newRoot, moves1, payload.ownership, payload.policy⟩, some pm2)
      | _, _ =>
          let newRoot := if alternativesMode then self.root else some payload.rootInfo
          (⟨newRoot, moves1, payload.ownership, payload.policy⟩, parentMoves)

/-- `GameNode.player_sign(player)`, i.e. `{"B": 1, "W": -1, None: 0}[player]`:
a plain dict lookup, raising `KeyError` (embedded as `none`) on any key other
than the three listed ones. -/
def player_sign (player : Option String) : Option Int :=
  if player = some "B" then some 1
  else if player = some "W" then some (-1)
  else if player = none then some 0
  else none

/-- A node's tree-context view as the derived metrics need it: its analysis
state plus the externally supplied player to move and board size (from the
`SGFNode` base class, outside the sampled fragment). -/
structure NodeCtx where
  state : NodeState
  nextPlayer : String
  boardSize : Nat × Nat
deriving DecidableEq

/-- A node together with its defining move and (the context of) its parent,
as `points_lost` and `move_policy_stats` consume them. -/
structure GameNode where
  ctx : NodeCtx
  move : Option Move
  parent : Option NodeCtx
deriving DecidableEq

/-- `GameNode.analysis_ready`: `analysis["root"] is not None`. -/
def NodeCtx.analysis_ready (n : NodeCtx) : Bool :=
  n.state.root.isSome

/-- `GameNode.score`: `analysis["root"].get("scoreLead")` when ready, else
`None` (the score lead is a total field of the engine contract). -/
def NodeCtx.score (n : NodeCtx) : Option ℚ :=
  n.state.root.map RootInfo.scoreLead

/-- `GameNode.points_lost`: guarded by
`single_move and self.parent and self.analysis_ready and self.parent.analysis_ready`;
inside the guard, `player_sign(single_move.player) * (parent_score - score)`,
which raises (embedded as `error`) when the move's player tag is not a valid
dict key. -/
def GameNode.points_lost (g : GameNode) : Except Unit (Option ℚ) :=
  match g.move, g.parent with
  | some mv, some p =>
      match g.ctx.state.root, p.state.root with
      | some r, some pr =>
          match player_sign mv.player with
          | some sgn => .ok (some (sgn * (pr.scoreLead - r.scoreLead)))
          | none => .error ()
      | _, _ => .ok none
  | _, _ => .ok none

/-- One step of a stable ascending insertion sort: `x` goes after every element
`y` with `le y x`.  For a total `le` this reproduces Python's stable `sorted`. -/
def insertLe (le : α → α → Bool) (x : α) : List α → List α
  | [] => [x]
  | y :: ys => if le y x then y :: insertLe le x ys else x :: y :: ys

/-- Stable sort by a total boolean comparison, modelling Python's `sorted`
(Timsort is stable; a stable sort's output is unique, so any stable sort is a
faithful model). -/
def sortedStable (le : α → α → Bool) (l : List α) : List α :=
  l.foldl (fun acc x => insertLe le x acc) []

/-- Modelled from the spec: `var_to_grid` (external `katrain.core.utils`) lays
the flat policy sequence out row-major over the board, `grid[y][x]`. -/
def varToGrid (policy : List ℚ) (szx : Nat) : Nat → Nat → ℚ :=
  fun y x => policy.getD (y * szx + x) 0

/-- `GameNode.policy_ranking`: `None` (Python's implicit return) when `policy`
is falsy; otherwise all board points (x outer loop, y inner) plus one pass
entry built from the last policy slot, sorted descending by probability
(`key=lambda mp: -mp[0]`, stable). -/
def NodeCtx.policy_ranking (n : NodeCtx) : Option (List (ℚ × Move)) :=
  match n.state.policy with
  | none => none
  | some pol =>
      if pol = [] then none
      else
        let szx := n.boardSize.1
        let szy := n.boardSize.2
        let grid := varToGrid pol szx
        let moves := ((List.range szx).map (fun x =>
          (List.range szy).map (fun y =>
            (grid y x, Move.mk (some (x, y)) (some n.nextPlayer))))).flatten
        let moves2 := moves ++ [(pol.getLastD 0, Move.mk none (some n.nextPlayer))]
        some (sortedStable (fun a b => decide (b.1 ≤ a.1)) moves2)

/-- The `for ix, (p, m) in enumerate(policy_ranking)` search: first index whose
move equals the given one, with its probability. -/
def findMoveRank (m : Move) : List (ℚ × Move) → Option (Nat × ℚ)
  | [] => none
  | (p, m2) :: rest =>
      if m2 = m then some (0, p)
      else (findMoveRank m rest).map (fun ip => (ip.1 + 1, ip.2))

/-- `GameNode.move_policy_stats`: when the node has a defining move and a
parent, iterate the parent's `policy_ranking`; the source iterates it with
`enumerate(...)` without a `None` guard, so a parent without policy data
(where `policy_ranking` returns `None`) raises `TypeError`, embedded as
`error`.  Otherwise the loop returns `(ix + 1, p, policy_ranking)` at the
first value-equal move, and the trailing `return None, 0.0, []` is the
fall-through. -/
def GameNode.move_policy_stats (g : GameNode) :
    Except Unit (Option Nat × ℚ × List (ℚ × Move)) :=
  match g.move, g.parent with
  | some m, some p =>
      match p.policy_ranking with
      | none => .error ()
      | some ranking =>
          match findMoveRank m ranking with
          | some ip => .ok (some (ip.1 + 1), ip.2, ranking)
          | none => .ok (none, 0, [])
  | _, _ => .ok (none, 0, [])

/-- One element of the `candidate_moves` result: the stored entry's fields plus
the computed `pointsLost`. -/
structure Candidate where
  move : String
  order : Int
  pointsLost : ℚ
  visits : Nat
  winrate : ℚ
  scoreLead : ℚ
  pv : Option (List String)
deriving DecidableEq

/-- The comparison key `(d["order"], d["pointsLost"])` of `candidate_moves`,
compared lexicographically as Python compares tuples. -/
def candLe (a b : Candidate) : Bool :=
  decide (a.order < b.order) ||
    (decide (a.order = b.order) && decide (a.pointsLost ≤ b.pointsLost))

/-- `GameNode.candidate_moves`: empty when not analysis-ready; when no per-move
entries exist, a single synthesized candidate
`{**root, "pointsLost": 0, "order": 0, "move": top.gtp(), "pv": [top.gtp()]}`
built from the top `policy_ranking` entry (`Move(None)` when the ranking is
falsy); otherwise every stored entry with
`pointsLost = player_sign(next_player) * (root_score - d["scoreLead"])`
(the sign lookup can raise, embedded as `error`), stably sorted by
`(order, pointsLost)`. -/
def NodeCtx.candidate_moves (n : NodeCtx) : Except Unit (List Candidate) :=
  match n.state.root with
  | none => .ok []
  | some root =>
      match n.state.moves with
      | [] =>
          let top : Move :=
            match n.policy_ranking with
            | some (hd :: _) => hd.2
            | _ => Move.mk none none
          .ok [⟨top.gtp, 0, 0, root.visits, root.winrate, root.scoreLead, some [top.gtp]⟩]
      | _ :: _ =>
          match player_sign (some n.nextPlayer) with
          | none => .error ()
          | some sgn =>
              let entries := n.state.moves.map (fun kv =>
                (⟨kv.2.move, kv.2.order, sgn * (root.scoreLead - kv.2.scoreLead),
                  kv.2.visits, kv.2.winrate, kv.2.scoreLead, kv.2.pv⟩ : Candidate))
              .ok (sortedStable candLe entries)

/-! Helper lemmas about the moves dict and the stable sort. -/

theorem lookupMove_append (ms ms2 : Moves) (k : String) :
    lookupMove (ms ++ ms2) k =
      match lookupMove ms k with
      | some v => some v
      | none => lookupMove ms2 k := by
  induction ms with
  | nil => simp [lookupMove]
  | cons hd tl ih =>
      obtain ⟨k2, v⟩ := hd
      by_cases h : k2 = k <;> simp [lookupMove, h, ih]

theorem lookupMove_setKey_self (ms : Moves) (k : String) (v : MoveEntry) :
    lookupMove (setKey ms k v) k = some v := by
  induction ms with
  | nil => simp [setKey, lookupMove]
  | cons hd tl ih =>
      obtain ⟨k2, v2⟩ := hd
      by_cases h : k2 = k <;> simp [setKey, lookupMove, h, ih]

theorem lookupMove_setKey_ne (ms : Moves) (k k2 : String) (v : MoveEntry) (h : k2 ≠ k) :
    lookupMove (setKey ms k v) k2 = lookupMove ms k2 := by
  induction ms with
  | nil => simp [setKey, lookupMove, Ne.symm h]
  | cons hd tl ih =>
      obtain ⟨k3, v3⟩ := hd
      by_cases h3 : k3 = k
      · subst h3
        simp [setKey, lookupMove, Ne.symm h]
      · by_cases h4 : k3 = k2 <;> simp [setKey, lookupMove, h, h3, h4, ih]

theorem lookupMove_update_self (ms : Moves) (ma : MoveRecord) (k : String) :
    lookupMove (update_move_analysis ms ma k) k =
      some (match lookupMove ms k with
            | none => newEntry k ma
            | some cur => mergeEntry cur ma) := by
  unfold update_move_analysis
  match h : lookupMove ms k with
  | none => rw [lookupMove_append, h]; simp [lookupMove]
  | some cur => exact lookupMove_setKey_self ms k _

theorem lookupMove_update_ne (ms : Moves) (ma : MoveRecord) (k k2 : String) (h : k2 ≠ k) :
    lookupMove (update_move_analysis ms ma k) k2 = lookupMove ms k2 := by
  unfold update_move_analysis
  match h3 : lookupMove ms k with
  | none =>
      rw [lookupMove_append]
      match h4 : lookupMove ms k2 with
      | some v => rfl
      | none => simp [lookupMove, Ne.symm h]
  | some cur => exact lookupMove_setKey_ne ms k k2 _ h

theorem lookupMove_mergeLoop_frame (mis : List MoveInfo) (ms : Moves) (k : String)
    (h : ∀ mi ∈ mis, mi.move ≠ k) :
    lookupMove (mergeLoop ms mis) k = lookupMove ms k := by
  induction mis generalizing ms with
  | nil => rfl
  | cons mi rest ih =>
      have h1 : mi.move ≠ k := h mi (List.mem_cons_self mi rest)
      have h2 : ∀ m ∈ rest, m.move ≠ k := fun m hm => h m (List.mem_cons_of_mem mi hm)
      calc lookupMove (mergeLoop (update_move_analysis ms mi.toRecord mi.move) rest) k
          = lookupMove (update_move_analysis ms mi.toRecord mi.move) k := ih _ h2
        _ = lookupMove ms k := lookupMove_update_ne ms _ mi.move k (fun hh => h1 hh.symm)

theorem lookupMove_mergeLoop_new (mis : List MoveInfo) (ms : Moves) (k : String) (e : MoveEntry)
    (hnodup : (mis.map MoveInfo.move).Nodup)
    (hnone : lookupMove ms k = none)
    (hres : lookupMove (mergeLoop ms mis) k = some e) :
    ∃ mi ∈ mis, mi.move = k ∧ e = newEntry k mi.toRecord := by
  induction mis generalizing ms with
  | nil => rw [show mergeLoop ms [] = ms from rfl, hnone] at hres; exact absurd hres (by simp)
  | cons mi rest ih =>
      rcases List.nodup_cons.mp hnodup with ⟨hmem, hnodup2⟩
      by_cases hk : mi.move = k
      · subst hk
        have hframe : ∀ m ∈ rest, m.move ≠ mi.move := by
          intro m hm heq
          exact hmem (heq ▸ List.mem_map_of_mem MoveInfo.move hm)
        have : lookupMove (mergeLoop (update_move_analysis ms mi.toRecord mi.move) rest) mi.move
            = lookupMove (update_move_analysis ms mi.toRecord mi.move) mi.move :=
          lookupMove_mergeLoop_frame rest _ mi.move hframe
        rw [show mergeLoop ms (mi :: rest) =
              mergeLoop (update_move_analysis ms mi.toRecord mi.move) rest from rfl,
            this, lookupMove_update_self, hnone] at hres
        exact ⟨mi, List.mem_cons_self mi rest, rfl, (Option.some_injective _ hres).symm⟩
      · have hnone2 : lookupMove (update_move_analysis ms mi.toRecord mi.move) k = none := by
          rw [lookupMove_update_ne ms _ mi.move k (fun hh => hk hh.symm)]; exact hnone
        rcases ih _ hnodup2 hnone2 hres with ⟨m, hm, hmv, he⟩
        exact ⟨m, List.mem_cons_of_mem mi hm, hmv, he⟩

theorem mem_of_lookupMove (ms : Moves) (k : String) (e : MoveEntry)
    (h : lookupMove ms k = some e) : (k, e) ∈ ms := by
  induction ms with
  | nil => exact absurd h (by simp [lookupMove])
  | cons hd tl ih =>
      obtain ⟨k2, v⟩ := hd
      by_cases h2 : k2 = k
      · subst h2
        simp [lookupMove] at h
        subst h
        exact List.mem_cons_self _ _
      · simp [lookupMove, h2] at h
        exact List.mem_cons_of_mem _ (ih h)

theorem mem_insertLe (le : α → α → Bool) (x a : α) (l : List α) (h : a ∈ l) :
    a ∈ insertLe le x l := by
  induction l with
  | nil => exact absurd h (by simp)
  | cons y ys ih =>
      by_cases hle : le y x = true
      · simp only [insertLe, hle, if_true]
        rcases List.mem_cons.mp h with h1 | h1
        · exact h1 ▸ List.mem_cons_self y _
        · exact List.mem_cons_of_mem y (ih h1)
      · simp only [insertLe, hle, if_false]
        exact List.mem_cons_of_mem x h

theorem self_mem_insertLe (le : α → α → Bool) (x : α) (l : List α) :
    x ∈ insertLe le x l := by
  induction l with
  | nil => simp [insertLe]
  | cons y ys ih =>
      by_cases hle : le y x = true
      · simp only [insertLe, hle, if_true]
        exact List.mem_cons_of_mem y ih
      · simp [insertLe, hle]

theorem mem_foldl_insertLe (le : α → α → Bool) (l : List α) :
    ∀ (acc : List α) (a : α), a ∈ acc ∨ a ∈ l →
      a ∈ l.foldl (fun acc2 x => insertLe le x acc2) acc := by
  induction l with
  | nil =>
      intro acc a hacc
      rcases hacc with h1 | h1
      · exact h1
      · exact absurd h1 (by simp)
  | cons y ys ih =>
      intro acc a hacc
      show a ∈ ys.foldl (fun acc2 x => insertLe le x acc2) (insertLe le y acc)
      rcases hacc with h1 | h1
      · exact ih _ a (Or.inl (mem_insertLe le y a acc h1))
      · rcases List.mem_cons.mp h1 with h2 | h2
        · exact ih _ a (Or.inl (h2 ▸ self_mem_insertLe le y acc))
        · exact ih _ a (Or.inr h2)

theorem mem_sortedStable (le : α → α → Bool) (l : List α) (a : α) (h : a ∈ l) :
    a ∈ sortedStable le l :=
  mem_foldl_insertLe le l [] a (Or.inr h)

theorem lookupMove_resetOrders (ms : Moves) (k : String) :
    lookupMove (resetOrders ms) k =
      (lookupMove ms k).map (fun e => { e with order := (999 : Int) }) := by
  unfold resetOrders
  induction ms with
  | nil => simp [lookupMove]
  | cons hd tl ih =>
      obtain ⟨k2, v⟩ := hd
      by_cases h : k2 = k <;> simp [lookupMove, h, ih]

/-! Claim theorems. -/

/-- C5 counterexample: the claim says every input other than "B" or "W" makes
`player_sign` raise, but the source dict maps the key `None` to 0, so the
input `None` (which is neither "B" nor "W") returns the numeric sign 0 instead
of raising. -/
theorem C5_player_sign_counterexample :
    player_sign none = some 0 ∧ (some (0 : Int)) ≠ (none : Option Int) := by
  constructor
  · rfl
  · intro h
    exact Option.noConfusion h

/-- C5 (amended): `player_sign` returns +1 for "B", −1 for "W", 0 for `None`,
and raises (`KeyError`) on every other input. -/
theorem C5_player_sign_amended :
    player_sign (some "B") = some 1 ∧ player_sign (some "W") = some (-1) ∧
    player_sign none = some 0 ∧
    ∀ s : String, s ≠ "B" → s ≠ "W" → player_sign (some s) = none := by
  refine ⟨rfl, rfl, rfl, ?_⟩
  intro s h1 h2
  simp [player_sign, h1, h2]

/-- C5 witness: the amended theorem at the concrete invalid tag "X". -/
theorem C5_player_sign_witness :
    player_sign (some "X") = none ∧ ("X" : String) ≠ "B" ∧ ("X" : String) ≠ "W" :=
  ⟨C5_player_sign_amended.2.2.2 "X" (by decide) (by decide), by decide, by decide⟩

/-- C1 counterexample: two results for move "D4" with visits 1 < 2 and orders
0 and 5; when the lower-visit result arrives first, the stored order ends as 5
(the v2 result's own order), not `min 0 5 = 0` as the claim states for either
arrival order: the visit-triggered `cur.update(move_analysis)` overwrites the
freshly computed minimum. -/
theorem C1_merge_counterexample :
    (lookupMove (update_move_analysis (update_move_analysis []
        (MoveInfo.toRecord ⟨"D4", 0, 1, 0, 0, []⟩) "D4")
        (MoveInfo.toRecord ⟨"D4", 5, 2, 0, 0, []⟩) "D4") "D4").map MoveEntry.order
      = some 5 ∧ (5 : Int) ≠ min 0 5 := by
  constructor
  · rfl
  · decide

/-- C1 (amended): merging two results with visits v1 < v2 for a move with no
prior entry leaves visit count v2 and the v2 result's fields in either arrival
order, but the stored order depends on the arrival order: when the v2 result
arrives second its own order stands (the dict update overwrites the computed
minimum), and only when the v2 result arrives first does the stored order equal
the minimum of the two delivered orders. -/
theorem C1_monotonic_visits_merge (ms : Moves) (k : String) (o1 o2 : Int) (v1 v2 : Nat)
    (w1 s1 w2 s2 : ℚ) (pv1 pv2 : List String)
    (hnone : lookupMove ms k = none) (hv : v1 < v2) :
    lookupMove (update_move_analysis (update_move_analysis ms
        (MoveInfo.toRecord ⟨k, o1, v1, w1, s1, pv1⟩) k)
        (MoveInfo.toRecord ⟨k, o2, v2, w2, s2, pv2⟩) k) k =
      some ⟨k, o2, v2, w2, s2, some pv2⟩ ∧
    lookupMove (update_move_analysis (update_move_analysis ms
        (MoveInfo.toRecord ⟨k, o2, v2, w2, s2, pv2⟩) k)
        (MoveInfo.toRecord ⟨k, o1, v1, w1, s1, pv1⟩) k) k =
      some ⟨k, min o1 o2, v2, w2, s2, some pv2⟩ := by
  constructor
  · rw [lookupMove_update_self, lookupMove_update_self, hnone]
    simp [newEntry, mergeEntry, MoveInfo.toRecord, hv]
  · rw [lookupMove_update_self, lookupMove_update_self, hnone]
    have hnlt : ¬ v2 < v1 := Nat.not_lt.mpr (le_of_lt hv)
    simp [newEntry, mergeEntry, MoveInfo.toRecord, hnlt, min_comm o2 o1]

/-- C1 witness: the amended theorem at move "D4", orders 0 and 5, visits
1 < 2, starting from the empty moves dict. -/
theorem C1_monotonic_visits_merge_witness :
    lookupMove (update_move_analysis (update_move_analysis []
        (MoveInfo.toRecord ⟨"D4", 0, 1, 0, 0, []⟩) "D4")
        (MoveInfo.toRecord ⟨"D4", 5, 2, 0, 0, []⟩) "D4") "D4" =
      some ⟨"D4", 5, 2, 0, 0, some []⟩ ∧
    lookupMove (update_move_analysis (update_move_analysis []
        (MoveInfo.toRecord ⟨"D4", 5, 2, 0, 0, []⟩) "D4")
        (MoveInfo.toRecord ⟨"D4", 0, 1, 0, 0, []⟩) "D4") "D4" =
      some ⟨"D4", min 0 5, 2, 0, 0, some []⟩ :=
  C1_monotonic_visits_merge [] "D4" 0 5 1 2 0 0 0 0 [] [] rfl (by decide)

/-- C10: an alternatives-mode merge (refineMove absent, alternativesMode true)
unconditionally overwrites the node's `ownership` and `policy` with the
payload's values exactly as a primary merge does, and shields only
`analysis.root`, which keeps its pre-merge value. -/
theorem C10_alternatives_ownership_policy (self : NodeState) (selfMove : Option Move)
    (parentMoves : Option Moves) (payload : Payload) :
    ((set_analysis self selfMove parentMoves payload none true).1.ownership = payload.ownership ∧
     (set_analysis self selfMove parentMoves payload none true).1.policy = payload.policy ∧
     (set_analysis self selfMove parentMoves payload none true).1.root = self.root) ∧
    ((set_analysis self selfMove parentMoves payload none false).1.ownership = payload.ownership ∧
     (set_analysis self selfMove parentMoves payload none false).1.policy = payload.policy) := by
  cases selfMove <;> cases parentMoves <;> simp [set_analysis]

/-- C3 counterexample: the claim's second worked example contradicts its own
formula and the code: for mover White with parent score −2 and own score −5,
the code computes `sign(W) × (parentScore − ownScore) = (−1) × 3 = −3`, not
the 3.0 the claim asserts. -/
theorem C3_points_lost_counterexample :
    GameNode.points_lost ⟨⟨⟨some ⟨20, 1/2, -5, none⟩, [], none, none⟩, "B", (19, 19)⟩,
        some ⟨some (4, 4), some "W"⟩,
        some ⟨⟨some ⟨10, 1/2, -2, none⟩, [], none, none⟩, "W", (19, 19)⟩⟩ =
      .ok (some (-3)) ∧
    (Except.ok (some (-3 : ℚ)) : Except Unit (Option ℚ)) ≠ .ok (some 3) := by
  constructor
  · show Except.ok (some (((-1 : Int) : ℚ) * ((-2 : ℚ) - (-5 : ℚ)))) = .ok (some (-3))
    norm_num
  · intro h
    have h2 : (some (-3 : ℚ)) = some 3 := by injection h
    have h3 : (-3 : ℚ) = 3 := by injection h2
    norm_num at h3

/-- C3 (amended): for a node with a defining move whose player tag is "B" or
"W", with a parent, both analysis-ready, `points_lost` is
`sign(mover) × (parentScore − ownScore)` with sign(B) = +1 and sign(W) = −1
(so parent +3, child +1, mover Black gives 2, and parent −2, child −5, mover
White gives −3, a three-point gain — not the 3.0 of the claim's example); it is
absent when the node has no defining move, has no parent (is the root), or
either node is not analysis-ready. -/
theorem C3_points_lost :
    (∀ (st : NodeState) (np : String) (bs : Nat × Nat) (mv : Move) (p : NodeCtx)
       (r pr : RootInfo) (sgn : Int),
       st.root = some r → p.state.root = some pr → player_sign mv.player = some sgn →
       GameNode.points_lost ⟨⟨st, np, bs⟩, some mv, some p⟩ =
         .ok (some (sgn * (pr.scoreLead - r.scoreLead)))) ∧
    (∀ c : Option (Nat × Nat), player_sign (Move.mk c (some "B")).player = some 1) ∧
    (∀ c : Option (Nat × Nat), player_sign (Move.mk c (some "W")).player = some (-1)) ∧
    (∀ (n : NodeCtx) (p : Option NodeCtx), GameNode.points_lost ⟨n, none, p⟩ = .ok none) ∧
    (∀ (n : NodeCtx) (mv : Option Move), GameNode.points_lost ⟨n, mv, none⟩ = .ok none) ∧
    (∀ (st : NodeState) (np : String) (bs : Nat × Nat) (mv : Move) (p : NodeCtx),
       st.root = none →
       GameNode.points_lost ⟨⟨st, np, bs⟩, some mv, some p⟩ = .ok none) ∧
    (∀ (n : NodeCtx) (mv : Move) (p : NodeCtx), p.state.root = none →
       GameNode.points_lost ⟨n, some mv, some p⟩ = .ok none) := by
  refine ⟨?_, ?_, ?_, ?_, ?_, ?_, ?_⟩
  · intro st np bs mv p r pr sgn h1 h2 h3
    simp [GameNode.points_lost, h1, h2, h3]
  · intro c; rfl
  · intro c; rfl
  · intro n p; rfl
  · intro n mv; cases mv <;> rfl
  · intro st np bs mv p h1
    simp [GameNode.points_lost, h1]
  · intro n mv p h1
    cases h2 : n.state.root <;> simp [GameNode.points_lost, h1, h2]

/-- C3 witness: the amended theorem at the two example positions — parent +3,
child +1, mover Black gives 2; parent −2, child −5, mover White gives −3. -/
theorem C3_points_lost_witness :
    GameNode.points_lost ⟨⟨⟨some ⟨20, 1/2, 1, none⟩, [], none, none⟩, "W", (19, 19)⟩,
        some ⟨some (3, 3), some "B"⟩,
        some ⟨⟨some ⟨10, 1/2, 3, none⟩, [], none, none⟩, "B", (19, 19)⟩⟩ = .ok (some 2) ∧
    GameNode.points_lost ⟨⟨⟨some ⟨20, 1/2, -5, none⟩, [], none, none⟩, "B", (19, 19)⟩,
        some ⟨some (4, 4), some "W"⟩,
        some ⟨⟨some ⟨10, 1/2, -2, none⟩, [], none, none⟩, "W", (19, 19)⟩⟩ = .ok (some (-3)) := by
  constructor
  · have h := C3_points_lost.1 ⟨some ⟨20, 1/2, 1, none⟩, [], none, none⟩ "W" (19, 19)
      ⟨some (3, 3), some "B"⟩ ⟨⟨some ⟨10, 1/2, 3, none⟩, [], none, none⟩, "B", (19, 19)⟩
      ⟨20, 1/2, 1, none⟩ ⟨10, 1/2, 3, none⟩ 1 rfl rfl rfl
    rw [h]
    norm_num
  · have h := C3_points_lost.1 ⟨some ⟨20, 1/2, -5, none⟩, [], none, none⟩ "B" (19, 19)
      ⟨some (4, 4), some "W"⟩ ⟨⟨some ⟨10, 1/2, -2, none⟩, [], none, none⟩, "W", (19, 19)⟩
      ⟨20, 1/2, -5, none⟩ ⟨10, 1/2, -2, none⟩ (-1) rfl rfl rfl
    rw [h]
    norm_num

/-- C9: for an analysis-ready node with empty `analysis.moves`,
`candidate_moves` returns exactly one entry with point loss 0 and order 0 whose
move is the top `policy_ranking` entry when the ranking exists (the pass move,
GTP "pass", when it does not, i.e. when policy data is absent); a node that is
not analysis-ready yields the empty sequence. -/
theorem C9_candidate_fallback :
    (∀ (root : RootInfo) (ow pol : Option (List ℚ)) (np : String) (bs : Nat × Nat)
       (hd : ℚ × Move) (tl : List (ℚ × Move)),
       NodeCtx.policy_ranking ⟨⟨some root, [], ow, pol⟩, np, bs⟩ = some (hd :: tl) →
       NodeCtx.candidate_moves ⟨⟨some root, [], ow, pol⟩, np, bs⟩ =
         .ok [⟨hd.2.gtp, 0, 0, root.visits, root.winrate, root.scoreLead, some [hd.2.gtp]⟩]) ∧
    (∀ (root : RootInfo) (ow pol : Option (List ℚ)) (np : String) (bs : Nat × Nat),
       NodeCtx.policy_ranking ⟨⟨some root, [], ow, pol⟩, np, bs⟩ = none →
       NodeCtx.candidate_moves ⟨⟨some root, [], ow, pol⟩, np, bs⟩ =
         .ok [⟨"pass", 0, 0, root.visits, root.winrate, root.scoreLead, some ["pass"]⟩]) ∧
    (∀ (moves : Moves) (ow pol : Option (List ℚ)) (np : String) (bs : Nat × Nat),
       NodeCtx.candidate_moves ⟨⟨none, moves, ow, pol⟩, np, bs⟩ = .ok []) := by
  refine ⟨?_, ?_, ?_⟩
  · intro root ow pol np bs hd tl h
    simp [NodeCtx.candidate_moves, h]
  · intro root ow pol np bs h
    simp [NodeCtx.candidate_moves, h, Move.gtp]
  · intro moves ow pol np bs
    rfl

/-- C9 witness: a 1×1 board with policy [3/4, 1/4] puts the board point on top
of the ranking, and the synthesized candidate is exactly that move with zero
point loss and order 0; without policy data the pass move is synthesized; an
unready node yields no candidates. -/
theorem C9_candidate_fallback_witness :
    NodeCtx.candidate_moves ⟨⟨some ⟨10, 1, 3, none⟩, [], none, some [2, 1]⟩, "B", (1, 1)⟩ =
      .ok [⟨"0,0", 0, 0, 10, 1, 3, some ["0,0"]⟩] ∧
    NodeCtx.candidate_moves ⟨⟨some ⟨10, 1, 3, none⟩, [], none, none⟩, "B", (19, 19)⟩ =
      .ok [⟨"pass", 0, 0, 10, 1, 3, some ["pass"]⟩] ∧
    NodeCtx.candidate_moves ⟨⟨none, [], none, none⟩, "B", (19, 19)⟩ = .ok [] := by
  refine ⟨?_, ?_, ?_⟩
  · exact C9_candidate_fallback.1 ⟨10, 1, 3, none⟩ none (some [2, 1]) "B" (1, 1)
      (2, ⟨some (0, 0), some "B"⟩) [(1, ⟨none, some "B"⟩)] rfl
  · exact C9_candidate_fallback.2.1 ⟨10, 1, 3, none⟩ none none "B" (19, 19) rfl
  · exact C9_candidate_fallback.2.2 [] none none "B" (19, 19)

/-- C6: evaluation of `move_policy_stats` around the failing input.  First
conjunct: a node with a defining move whose parent has no policy data — the
source iterates `enumerate(self.parent.policy_ranking)` with `policy_ranking`
returning `None`, raising `TypeError` where the claim requires the not-found
sentinel `(None, 0.0, [])`.  The other conjuncts show the behaviors the claim
gets right: 1-based rank and probability for a move found in the parent's
ranking, and the sentinel for a move absent from an existing ranking. -/
theorem C6_move_policy_stats :
    GameNode.move_policy_stats ⟨⟨⟨none, [], none, none⟩, "W", (1, 1)⟩,
        some ⟨some (0, 0), some "B"⟩,
        some ⟨⟨none, [], none, none⟩, "B", (1, 1)⟩⟩ = .error () ∧
    GameNode.move_policy_stats ⟨⟨⟨none, [], none, none⟩, "W", (1, 1)⟩,
        some ⟨none, some "B"⟩,
        some ⟨⟨none, [], none, some [2, 1]⟩, "B", (1, 1)⟩⟩ =
      .ok (some 2, 1, [(2, ⟨some (0, 0), some "B"⟩), (1, ⟨none, some "B"⟩)]) ∧
    GameNode.move_policy_stats ⟨⟨⟨none, [], none, none⟩, "W", (1, 1)⟩,
        some ⟨some (5, 5), some "B"⟩,
        some ⟨⟨none, [], none, some [2, 1]⟩, "B", (1, 1)⟩⟩ = .ok (none, 0, []) := by
  refine ⟨rfl, rfl, rfl⟩

/-- C4 counterexample: a refine merge whose delivered `rootInfo` carries its
own `pv` (`["Q1"]`) stores that `pv` unchanged for refine move (2,2) (GTP
"2,2"): the dict literal `{"pv": [refine_move.gtp()] + pvtail, **rootInfo}`
lets the spread override the prepended variation, so the stored principal
variation does not begin with the refine move as the claim states. -/
theorem C4_refine_counterexample :
    (lookupMove (set_analysis ⟨none, [], none, none⟩ none none
        ⟨⟨10, 1/2, 3, some ["Q1"]⟩, [], none, none⟩ (some ⟨some (2, 2), some "B"⟩) false).1.moves
        "2,2").map MoveEntry.pv = some (some ["Q1"]) ∧
    ∀ tl2 : List String, (["Q1"] : List String) ≠ "2,2" :: tl2 := by
  constructor
  · rfl
  · intro tl2 h
    injection h with h1 h2
    exact absurd h1 (by decide)

/-- C4 (amended): a refine merge updates exactly `analysis.moves[refineMove]`
via the per-move merge rule, with the merged record's principal variation
being refineMove prepended to the top payload move's pv when the delivered
rootInfo carries no pv of its own, and the rootInfo's pv unchanged otherwise;
analysis.root, ownership, policy, all other move entries, and the parent's
analysis are unmodified. -/
theorem C4_refine_merge (self : NodeState) (selfMove : Option Move) (pm : Option Moves)
    (payload : Payload) (rm : Move) (alt : Bool) :
    (set_analysis self selfMove pm payload (some rm) alt).1.root = self.root ∧
    (set_analysis self selfMove pm payload (some rm) alt).1.ownership = self.ownership ∧
    (set_analysis self selfMove pm payload (some rm) alt).1.policy = self.policy ∧
    (set_analysis self selfMove pm payload (some rm) alt).2 = pm ∧
    (∀ k, k ≠ rm.gtp →
       lookupMove (set_analysis self selfMove pm payload (some rm) alt).1.moves k =
         lookupMove self.moves k) ∧
    lookupMove (set_analysis self selfMove pm payload (some rm) alt).1.moves rm.gtp =
      some (match lookupMove self.moves rm.gtp with
            | none => newEntry rm.gtp ⟨none, none, payload.rootInfo.visits,
                payload.rootInfo.winrate, payload.rootInfo.scoreLead,
                some (payload.rootInfo.pv.getD (rm.gtp :: pvHead payload.moveInfos))⟩
            | some cur => mergeEntry cur ⟨none, none, payload.rootInfo.visits,
                payload.rootInfo.winrate, payload.rootInfo.scoreLead,
                some (payload.rootInfo.pv.getD (rm.gtp :: pvHead payload.moveInfos))⟩) := by
  refine ⟨rfl, rfl, rfl, rfl, ?_, ?_⟩
  · intro k hk
    exact lookupMove_update_ne self.moves _ rm.gtp k hk
  · exact lookupMove_update_self self.moves _ rm.gtp

/-- C4 witness: the amended theorem at a concrete refine merge — an unrelated
stored entry at key "pass" is untouched, and the refine key "2,2" receives the
merged record with the prepended variation (rootInfo has no pv here). -/
theorem C4_refine_merge_witness :
    lookupMove (set_analysis ⟨none, [("pass", ⟨"pass", 3, 4, 1/2, 0, none⟩)], none, none⟩
        none none ⟨⟨10, 1/2, 3, none⟩, [], none, none⟩
        (some ⟨some (2, 2), some "B"⟩) false).1.moves "pass" =
      some ⟨"pass", 3, 4, 1/2, 0, none⟩ ∧
    lookupMove (set_analysis ⟨none, [("pass", ⟨"pass", 3, 4, 1/2, 0, none⟩)], none, none⟩
        none none ⟨⟨10, 1/2, 3, none⟩, [], none, none⟩
        (some ⟨some (2, 2), some "B"⟩) false).1.moves "2,2" =
      some (newEntry "2,2" ⟨none, none, 10, 1/2, 3, some ["2,2"]⟩) := by
  constructor
  · exact (C4_refine_merge ⟨none, [("pass", ⟨"pass", 3, 4, 1/2, 0, none⟩)], none, none⟩
      none none ⟨⟨10, 1/2, 3, none⟩, [], none, none⟩
      ⟨some (2, 2), some "B"⟩ false).2.2.2.2.1 "pass" (by decide)
  · exact (C4_refine_merge ⟨none, [("pass", ⟨"pass", 3, 4, 1/2, 0, none⟩)], none, none⟩
      none none ⟨⟨10, 1/2, 3, none⟩, [], none, none⟩
      ⟨some (2, 2), some "B"⟩ false).2.2.2.2.2

/-- The moves dict produced by a primary merge, in every parent/move
configuration: merge the payload's moveInfos into the order-reset stored
entries. -/
theorem set_analysis_primary_moves (self : NodeState) (selfMove : Option Move)
    (pm : Option Moves) (payload : Payload) :
    (set_analysis self selfMove pm payload none false).1.moves =
      mergeLoop (resetOrders self.moves) payload.moveInfos := by
  cases selfMove <;> cases pm <;> rfl

/-- The moves dict produced by an alternatives-mode merge: merge the payload's
moveInfos, each with 10 added to its order, into the unreset stored entries. -/
theorem set_analysis_alt_moves (self : NodeState) (selfMove : Option Move)
    (pm : Option Moves) (payload : Payload) :
    (set_analysis self selfMove pm payload none true).1.moves =
      mergeLoop self.moves
        (payload.moveInfos.map (fun m => { m with order := m.order + 10 })) := by
  cases selfMove <;> cases pm <;> rfl

/-- C7 counterexample: a primary merge on a node with a parent and defining
move (2,2): the payload's root stats are `⟨10, 1, 3, none⟩` (no pv), but the
stored `analysis.root` ends as `⟨10, 1, 3, some ["2,2", "1,1", "2,2"]⟩` — the
source assigns `analysis_json["rootInfo"]` into `analysis["root"]` and then
mutates that same dict's "pv" for the parent back-propagation, so the stored
root does not equal the delivered root stats as the claim asserts. -/
theorem C7_primary_root_counterexample :
    (set_analysis ⟨none, [], none, none⟩ (some ⟨some (2, 2), some "B"⟩) (some [])
        ⟨⟨10, 1, 3, none⟩, [⟨"1,1", 0, 7, 1, 2, ["1,1", "2,2"]⟩], none, none⟩ none false).1.root =
      some ⟨10, 1, 3, some ["2,2", "1,1", "2,2"]⟩ ∧
    some (⟨10, 1, 3, some ["2,2", "1,1", "2,2"]⟩ : RootInfo) ≠ some ⟨10, 1, 3, none⟩ := by
  exact ⟨rfl, by decide⟩

/-- C7 (amended): after a primary merge, every previously stored move entry
whose id is absent from the payload's moveInfos keeps its fields with order
reset to 999; `analysis.root` equals the payload's root stats when the node
has no parent or no defining move, and equals them with `pv` replaced by the
node's move prepended to the top payload move's pv when it has both (the
stored root aliases the record back-propagated to the parent). -/
theorem C7_full_analysis_reset (self : NodeState) (selfMove : Option Move) (pm : Option Moves)
    (payload : Payload) :
    (∀ k e, lookupMove self.moves k = some e →
       (∀ mi ∈ payload.moveInfos, mi.move ≠ k) →
       lookupMove (set_analysis self selfMove pm payload none false).1.moves k =
         some { e with order := (999 : Int) }) ∧
    (∀ mv pmoves, selfMove = some mv → pm = some pmoves →
       (set_analysis self selfMove pm payload none false).1.root =
         some { payload.rootInfo with pv := some (mv.gtp :: pvHead payload.moveInfos) }) ∧
    ((selfMove = none ∨ pm = none) →
       (set_analysis self selfMove pm payload none false).1.root = some payload.rootInfo) := by
  refine ⟨?_, ?_, ?_⟩
  · intro k e h hmem
    rw [set_analysis_primary_moves,
        lookupMove_mergeLoop_frame payload.moveInfos _ k hmem,
        lookupMove_resetOrders, h]
    rfl
  · intro mv pmoves h1 h2
    subst h1; subst h2
    rfl
  · intro hcase
    rcases hcase with h1 | h1
    · subst h1; cases pm <;> rfl
    · subst h1; cases selfMove <;> rfl

/-- C7 witness: the amended theorem at a primary merge of a payload for move
"1,1" into a parentless node holding a stale entry at "9,9": the stale entry
keeps its fields with order 999, and the root equals the delivered root stats
exactly. -/
theorem C7_full_analysis_reset_witness :
    lookupMove (set_analysis ⟨none, [("9,9", ⟨"9,9", 2, 5, 1, 1, none⟩)], none, none⟩ none none
        ⟨⟨10, 1, 3, none⟩, [⟨"1,1", 0, 7, 1, 2, ["1,1"]⟩], none, none⟩ none false).1.moves "9,9" =
      some ⟨"9,9", 999, 5, 1, 1, none⟩ ∧
    (set_analysis ⟨none, [("9,9", ⟨"9,9", 2, 5, 1, 1, none⟩)], none, none⟩ none none
        ⟨⟨10, 1, 3, none⟩, [⟨"1,1", 0, 7, 1, 2, ["1,1"]⟩], none, none⟩ none false).1.root =
      some ⟨10, 1, 3, none⟩ := by
  constructor
  · exact (C7_full_analysis_reset ⟨none, [("9,9", ⟨"9,9", 2, 5, 1, 1, none⟩)], none, none⟩
      none none ⟨⟨10, 1, 3, none⟩, [⟨"1,1", 0, 7, 1, 2, ["1,1"]⟩], none, none⟩).1
      "9,9" ⟨"9,9", 2, 5, 1, 1, none⟩ rfl (by decide)
  · exact (C7_full_analysis_reset ⟨none, [("9,9", ⟨"9,9", 2, 5, 1, 1, none⟩)], none, none⟩
      none none ⟨⟨10, 1, 3, none⟩, [⟨"1,1", 0, 7, 1, 2, ["1,1"]⟩], none, none⟩).2.2
      (Or.inl rfl)

/-- C8: after an alternatives-mode merge (with the source's fixed offset
K = 10) of a payload with pairwise distinct move ids, every newly created
entry (one whose id had no stored entry before) has order at least 10 more
than its payload-declared order, and `analysis.root` keeps its pre-merge
value. -/
theorem C8_alternatives_offset (self : NodeState) (selfMove : Option Move) (pm : Option Moves)
    (payload : Payload) (k : String) (e : MoveEntry)
    (hnodup : (payload.moveInfos.map MoveInfo.move).Nodup)
    (hnew : lookupMove self.moves k = none)
    (hres : lookupMove (set_analysis self selfMove pm payload none true).1.moves k = some e) :
    (∃ mi ∈ payload.moveInfos, mi.move = k ∧ mi.order + 10 ≤ e.order) ∧
    (set_analysis self selfMove pm payload none true).1.root = self.root := by
  constructor
  · rw [set_analysis_alt_moves] at hres
    have hnodup2 :
        ((payload.moveInfos.map (fun m => { m with order := m.order + 10 })).map
          MoveInfo.move).Nodup := by
      rw [List.map_map]
      exact hnodup
    rcases lookupMove_mergeLoop_new _ self.moves k e hnodup2 hnew hres with ⟨mi, hmi, hmv, he⟩
    rcases List.mem_map.mp hmi with ⟨m, hm, hfm⟩
    refine ⟨m, hm, ?_, ?_⟩
    · rw [← hfm] at hmv
      exact hmv
    · subst he
      rw [← hfm] at hmv ⊢
      exact le_refl _
  · cases selfMove <;> cases pm <;> rfl

/-- C8 witness: merging a single alternatives-mode moveInfo for "1,1" with
declared order 2 into a node with no entry for it creates the entry with
order 12 = 2 + 10, and the root analysis is untouched. -/
theorem C8_alternatives_offset_witness :
    (∃ mi ∈ ([⟨"1,1", 2, 7, 1, 2, []⟩] : List MoveInfo), mi.move = "1,1" ∧
        mi.order + 10 ≤ (⟨"1,1", 12, 7, 1, 2, some []⟩ : MoveEntry).order) ∧
    (set_analysis ⟨some ⟨10, 1, 3, none⟩, [], none, none⟩ none none
        ⟨⟨20, 1, 4, none⟩, [⟨"1,1", 2, 7, 1, 2, []⟩], none, none⟩ none true).1.root =
      some ⟨10, 1, 3, none⟩ :=
  C8_alternatives_offset ⟨some ⟨10, 1, 3, none⟩, [], none, none⟩ none none
    ⟨⟨20, 1, 4, none⟩, [⟨"1,1", 2, 7, 1, 2, []⟩], none, none⟩ "1,1"
    ⟨"1,1", 12, 7, 1, 2, some []⟩ (by decide) rfl rfl

/-- Membership in `candidate_moves`: every stored entry surfaces as a
candidate carrying the entry's move id and principal variation (on an
analysis-ready node whose player sign resolves). -/
theorem candidate_moves_mem (pr : RootInfo) (ms : Moves) (pow ppol : Option (List ℚ))
    (np : String) (bs : Nat × Nat) (sgn : Int)
    (hsgn : player_sign (some np) = some sgn)
    (k : String) (e : MoveEntry) (hlookup : lookupMove ms k = some e) :
    ∃ cs, NodeCtx.candidate_moves ⟨⟨some pr, ms, pow, ppol⟩, np, bs⟩ = .ok cs ∧
      ∃ c ∈ cs, c.move = e.move ∧ c.pv = e.pv := by
  cases ms with
  | nil => exact absurd hlookup (by simp [lookupMove])
  | cons hd tl =>
      have hmem : (k, e) ∈ hd :: tl := mem_of_lookupMove _ k e hlookup
      have heq : NodeCtx.candidate_moves ⟨⟨some pr, hd :: tl, pow, ppol⟩, np, bs⟩ =
          .ok (sortedStable candLe ((hd :: tl).map (fun kv =>
            (⟨kv.2.move, kv.2.order, sgn * (pr.scoreLead - kv.2.scoreLead),
              kv.2.visits, kv.2.winrate, kv.2.scoreLead, kv.2.pv⟩ : Candidate)))) := by
        simp [NodeCtx.candidate_moves, hsgn]
      refine ⟨_, heq, ⟨_, mem_sortedStable _ _ _ (List.mem_map_of_mem _ hmem), rfl, rfl⟩⟩

/-- C2: after a primary or alternatives-mode merge on a node with a parent and
a defining move, the delivered root stats — with the node's move prepended to
the (top payload move's) principal variation — are merged into the parent's
`analysis.moves` under the node's move id via the per-move merge rule; and on
an analysis-ready parent, `candidate_moves` then contains an entry for the
child's move whose principal variation begins with that move.  The second part
assumes the parent's prior entry for the move, if one exists, carries the
move id as its "move" field and either has fewer visits than the delivered
root stats or already starts its pv with the move — the invariant every entry
produced by the engine contract and by this merge algorithm satisfies. -/
theorem C2_parent_backprop (self : NodeState) (mv : Move) (pm : Moves) (payload : Payload)
    (alt : Bool) (pr : RootInfo) (pow ppol : Option (List ℚ)) (pnp : String) (pbs : Nat × Nat)
    (hnp : pnp = "B" ∨ pnp = "W")
    (hprior : ∀ e, lookupMove pm mv.gtp = some e →
       e.move = mv.gtp ∧
       (e.visits < payload.rootInfo.visits ∨ ∃ tl2, e.pv = some (mv.gtp :: tl2))) :
    (set_analysis self (some mv) (some pm) payload none alt).2 =
      some (update_move_analysis pm
        (RootInfo.toRecord
          { payload.rootInfo with pv := some (mv.gtp :: pvHead payload.moveInfos) })
        mv.gtp) ∧
    ∃ cs, NodeCtx.candidate_moves ⟨⟨some pr,
        update_move_analysis pm
          (RootInfo.toRecord
            { payload.rootInfo with pv := some (mv.gtp :: pvHead payload.moveInfos) })
          mv.gtp, pow, ppol⟩, pnp, pbs⟩ = .ok cs ∧
      ∃ c ∈ cs, c.move = mv.gtp ∧ ∃ tl2, c.pv = some (mv.gtp :: tl2) := by
  constructor
  · cases alt <;> rfl
  · have hsgn : ∃ sgn : Int, player_sign (some pnp) = some sgn := by
      rcases hnp with h | h <;> subst h
      · exact ⟨1, rfl⟩
      · exact ⟨-1, rfl⟩
    rcases hsgn with ⟨sgn, hsgn⟩
    have hself := lookupMove_update_self pm
      (RootInfo.toRecord { payload.rootInfo with pv := some (mv.gtp :: pvHead payload.moveInfos) })
      mv.gtp
    cases hcur : lookupMove pm mv.gtp with
    | none =>
        rw [hcur] at hself
        rcases candidate_moves_mem pr _ pow ppol pnp pbs sgn hsgn mv.gtp _ hself
          with ⟨cs, hcs, c, hc, hcmove, hcpv⟩
        exact ⟨cs, hcs, c, hc, by rw [hcmove]; rfl,
          pvHead payload.moveInfos, by rw [hcpv]; rfl⟩
    | some cur =>
        rw [hcur] at hself
        rcases hprior cur hcur with ⟨hcm, hdisj⟩
        rcases candidate_moves_mem pr _ pow ppol pnp pbs sgn hsgn mv.gtp _ hself
          with ⟨cs, hcs, c, hc, hcmove, hcpv⟩
        by_cases hv : cur.visits < payload.rootInfo.visits
        · refine ⟨cs, hcs, c, hc, ?_, pvHead payload.moveInfos, ?_⟩
          · rw [hcmove]
            show (mergeEntry cur _).move = mv.gtp
            simp [mergeEntry, RootInfo.toRecord, hv, hcm]
          · rw [hcpv]
            show (mergeEntry cur _).pv = some (mv.gtp :: pvHead payload.moveInfos)
            simp [mergeEntry, RootInfo.toRecord, hv]
        · have hpv : ∃ tl2, cur.pv = some (mv.gtp :: tl2) := by
            rcases hdisj with h | h
            · exact absurd h hv
            · exact h
          rcases hpv with ⟨tl2, htl2⟩
          refine ⟨cs, hcs, c, hc, ?_, tl2, ?_⟩
          · rw [hcmove]
            show (mergeEntry cur _).move = mv.gtp
            simp [mergeEntry, RootInfo.toRecord, hv, hcm]
          · rw [hcpv]
            show (mergeEntry cur _).pv = some (mv.gtp :: tl2)
            simp [mergeEntry, RootInfo.toRecord, hv, htl2]

/-- C2 witness: a child at move (2,2) with an empty payload merging into a
fresh analysis-ready parent: the parent's moves gain the synthesized record,
and the parent's candidates contain an entry for "2,2" whose pv starts with
"2,2". -/
theorem C2_parent_backprop_witness :
    (set_analysis ⟨none, [], none, none⟩ (some ⟨some (2, 2), some "B"⟩) (some [])
        ⟨⟨10, 1, 3, none⟩, [], none, none⟩ none false).2 =
      some (update_move_analysis [] (RootInfo.toRecord ⟨10, 1, 3, some ["2,2"]⟩) "2,2") ∧
    ∃ cs, NodeCtx.candidate_moves ⟨⟨some ⟨10, 1, 0, none⟩,
        update_move_analysis [] (RootInfo.toRecord ⟨10, 1, 3, some ["2,2"]⟩) "2,2",
        none, none⟩, "W", (19, 19)⟩ = .ok cs ∧
      ∃ c ∈ cs, c.move = "2,2" ∧ ∃ tl2, c.pv = some ("2,2" :: tl2) := by
  have h := C2_parent_backprop ⟨none, [], none, none⟩ ⟨some (2, 2), some "B"⟩ []
    ⟨⟨10, 1, 3, none⟩, [], none, none⟩ false ⟨10, 1, 0, none⟩ none none "W" (19, 19)
    (Or.inr rfl) (by intro e he; exact Option.noConfusion he)
  exact h

end KaTrain
